import Mathlib

/-!
# dcos-cli: cluster configuration resolver and plugin dispatch

A shallow embedding of `pkg/cli/cluster.go` (typed accessors over a configuration
store, TLS policy resolution) and `pkg/cmd/dcos.go` (command tree construction,
plugin invocation), together with the properties stated about them.

Go strings are embedded as Lean strings, `[]byte` as lists of byte values,
`int64` / `time.Duration` as integers with explicit wrap-around, and finite
`float64` values as the rationals they denote, every arithmetic operation being
followed by rounding to the nearest binary64 value.
-/

namespace DCOS

/-! ## Library collaborators -/

/-- Contents of a file, or any other `[]byte`. -/
abbrev Bytes := List Nat

/-- An X.509 certificate, identified by its raw DER encoding (`Certificate.Raw`),
which is what `Certificate.Equal` compares. -/
structure Certificate where
  Raw : Bytes
deriving DecidableEq, Repr

/-- Behaviour of the library routines the code calls but whose algorithm is not
part of the program: float formatting, integer parsing, PEM/X.509 decoding and
executable lookup. -/
structure Lib where
  /-- The function `strconv.FormatFloat(f, 'f', -1, 64)`. -/
  FormatFloat : ℚ → String
  /-- The function `strconv.ParseInt(s, 0, 0)`; `none` on a syntax or range error. -/
  ParseInt : String → Option Int
  /-- The certificates found in PEM data, in order: one for every block of type
  `CERTIFICATE` without headers whose bytes `x509.ParseCertificate` accepts. -/
  decodeCerts : Bytes → List Certificate
  /-- The function `filepath.Base`. -/
  Base : String → String
  /-- The function `exec.LookPath`; `none` when the lookup fails. -/
  LookPath : String → Option String

/-- The function `strconv.ParseBool`: `none` stands for the syntax error. -/
def ParseBool (str : String) : Option Bool :=
  if str = "1" ∨ str = "t" ∨ str = "T" ∨ str = "true" ∨ str = "TRUE" ∨ str = "True" then
    some true
  else if str = "0" ∨ str = "f" ∨ str = "F" ∨ str = "false" ∨ str = "FALSE" ∨ str = "False" then
    some false
  else
    none

/-- The function `strconv.FormatBool`. -/
def FormatBool (b : Bool) : String :=
  if b then "true" else "false"

/-- The function `strings.TrimRight`: the string without its trailing characters
that occur in `cutset`. -/
def TrimRight (s cutset : String) : String :=
  ⟨s.data.rdropWhile (fun c => decide (c ∈ cutset.data))⟩

/-! ### binary64 arithmetic -/

/-- Nearest integer, ties to the even one. -/
def roundHalfEven (q : ℚ) : ℤ :=
  let f := ⌊q⌋
  if q - f < 1 / 2 then f
  else if 1 / 2 < q - f then f + 1
  else if f % 2 = 0 then f
  else f + 1

/-- Rounding of a rational to the nearest finite binary64 value (53 significant
bits, minimum exponent -1022, ties to even). Overflow to infinity is outside the
embedding: the quantities rounded here are bounded by 2^63. -/
def F64.round (q : ℚ) : ℚ :=
  if q = 0 then 0
  else
    let e := max (Int.log 2 |q|) (-1022)
    (roundHalfEven (q / (2 : ℚ) ^ (e - 52)) : ℚ) * (2 : ℚ) ^ (e - 52)

/-- Conversion `float64(n)` of an integer. -/
def F64.ofInt (n : Int) : ℚ := F64.round n

/-- Sum of two float64 values. -/
def F64.add (a b : ℚ) : ℚ := F64.round (a + b)

/-- Quotient of two float64 values (finite, non-zero divisor). -/
def F64.div (a b : ℚ) : ℚ := F64.round (a / b)

/-- Two's-complement wrap-around of an integer into the `int64` range. -/
def wrap64 (n : Int) : Int :=
  (n + 2 ^ 63) % 2 ^ 64 - 2 ^ 63

/-- Conversion `int64(f)` of a float64: truncation toward zero; a value outside
the `int64` range gives the minimum `int64` (the amd64 result). -/
def F64.toInt64 (f : ℚ) : Int :=
  let t : Int := if 0 ≤ f then ⌊f⌋ else ⌈f⌉
  if -(2 : Int) ^ 63 ≤ t ∧ t < 2 ^ 63 then t else -(2 : Int) ^ 63

/-! ### Dynamically typed configuration values and `cast` -/

/-- A value held by the configuration store (`interface{}`): absent, or one of the
scalar kinds of the configuration file; `other` stands for every remaining kind
(tables, arrays, dates), which `cast` does not convert. -/
inductive Value where
  | nil
  | str (s : String)
  | bool (b : Bool)
  | int (n : Int)
  | float (f : ℚ)
  | other
deriving DecidableEq

/-- The function `cast.ToString`: the zero value on a kind it cannot convert. -/
def ToString (L : Lib) : Value → String
  | .str s => s
  | .bool b => FormatBool b
  | .float f => L.FormatFloat f
  | .int n => toString n
  | .nil => ""
  | .other => ""

/-- The function `cast.ToInt64`: the zero value on a failed conversion. -/
def ToInt64 (L : Lib) : Value → Int
  | .int n => n
  | .float f => F64.toInt64 f
  | .str s => (L.ParseInt s).getD 0
  | .bool b => if b then 1 else 0
  | .nil => 0
  | .other => 0

/-! ### Filesystem and certificate pools -/

/-- A filesystem (`afero.Fs`) as seen by `afero.ReadFile`: the contents of the
file at a path, `none` when opening or reading it fails. -/
abbrev Fs := String → Option Bytes

/-- The function `afero.ReadFile`. -/
def ReadFile (fs : Fs) (filename : String) : Option Bytes :=
  fs filename

/-- A pool of certificates (`x509.CertPool`). -/
structure CertPool where
  certs : List Certificate
deriving DecidableEq, Repr

/-- The function `x509.NewCertPool`. -/
def NewCertPool : CertPool := ⟨[]⟩

/-- The method `CertPool.AddCert`: a certificate already in the pool is not
added again. -/
def CertPool.AddCert (s : CertPool) (cert : Certificate) : CertPool :=
  if cert ∈ s.certs then s else ⟨s.certs ++ [cert]⟩

/-- The method `CertPool.AppendCertsFromPEM`: adds every certificate found in the
PEM data and reports whether at least one was found. -/
def CertPool.AppendCertsFromPEM (L : Lib) (s : CertPool) (pemCerts : Bytes) : CertPool × Bool :=
  let found := L.decodeCerts pemCerts
  (found.foldl CertPool.AddCert s, !found.isEmpty)

/-! ## pkg/cli/cluster.go -/

/-- Modelled from the spec: the configuration store `config.Config` (package
`pkg/config` is not among the sources): a key/value store with get and set by
dotted key, and a filesystem handle for reading side files. -/
structure Config where
  values : String → Value
  fs : Fs

/-- Modelled from the spec: `Config.Get`, the value stored under a dotted key,
`nil` when the key is absent. -/
def Config.Get (c : Config) (key : String) : Value :=
  c.values key

/-- Modelled from the spec: `Config.Set`, which stores a value under a dotted key
and leaves every other key unchanged. -/
def Config.Set (c : Config) (key : String) (val : Value) : Config :=
  { c with values := fun k => if k = key then val else c.values k }

/-- Modelled from the spec: `Config.Fs`, the filesystem handle of the store. -/
def Config.Fs (c : Config) : Fs :=
  c.fs

/-- Modelled from the spec: `config.Empty`, the store without any key; `fs` is the
filesystem it is created over. -/
def Config.Empty (fs : DCOS.Fs) : Config :=
  { values := fun _ => Value.nil, fs := fs }

/-- The type `time.Duration`: a number of nanoseconds held in an `int64`. -/
abbrev Duration := Int

/-- The constant `time.Second`. -/
def Second : Duration := 1000000000

/-- The method `Duration.Seconds`: the duration as a floating point number of
seconds, `float64(d / Second) + float64(d % Second) / 1e9` with the truncating
division and remainder of Go. -/
def Duration.Seconds (d : Duration) : ℚ :=
  let sec := Int.tdiv d Second
  let nsec := Int.tmod d Second
  F64.add (F64.ofInt sec) (F64.div (F64.ofInt nsec) (F64.round 1000000000))

/-- The configuration for TLS clients: `RootCAs` is `none` for the nil pool. -/
structure TLS where
  Insecure : Bool
  RootCAsPath : String
  RootCAs : Option CertPool
deriving DecidableEq, Repr

/-- The method `TLS.String`. -/
def TLS.String (tls : TLS) : String :=
  if tls.RootCAsPath ≠ "" then tls.RootCAsPath
  else FormatBool (!tls.Insecure)

/-- A proxy on top of a config. -/
structure Cluster where
  config : Config

/-- The function `NewCluster`: `none` is the nil config, replaced by an empty one
(created over the filesystem `fs`). -/
def NewCluster (fs : Fs) (conf : Option Config) : Cluster :=
  match conf with
  | none => { config := Config.Empty fs }
  | some conf => { config := conf }

/-- The method `Cluster.URL`. -/
def Cluster.URL (L : Lib) (c : Cluster) : String :=
  let url := ToString L (c.config.Get "core.dcos_url")
  TrimRight url "/"

/-- The method `Cluster.SetURL`. -/
def Cluster.SetURL (c : Cluster) (url : String) : Cluster :=
  { config := c.config.Set "core.dcos_url" (Value.str url) }

/-- The method `Cluster.ACSToken`. -/
def Cluster.ACSToken (L : Lib) (c : Cluster) : String :=
  ToString L (c.config.Get "core.dcos_acs_token")

/-- The method `Cluster.SetACSToken`. -/
def Cluster.SetACSToken (c : Cluster) (acsToken : String) : Cluster :=
  { config := c.config.Set "core.dcos_acs_token" (Value.str acsToken) }

/-- The method `Cluster.TLS`. -/
def Cluster.TLS (L : Lib) (c : Cluster) : DCOS.TLS :=
  let tlsVal := ToString L (c.config.Get "core.ssl_verify")
  match ParseBool tlsVal with
  | some verify => { Insecure := !verify, RootCAsPath := "", RootCAs := none }
  | none =>
    match ReadFile c.config.Fs tlsVal with
    | none => { Insecure := true, RootCAsPath := tlsVal, RootCAs := none }
    | some rootCAsPEM =>
      let appended := NewCertPool.AppendCertsFromPEM L rootCAsPEM
      if !appended.2 then
        { Insecure := true, RootCAsPath := tlsVal, RootCAs := none }
      else
        { Insecure := false, RootCAsPath := tlsVal, RootCAs := some appended.1 }

/-- The method `Cluster.SetTLS`. -/
def Cluster.SetTLS (c : Cluster) (tls : DCOS.TLS) : Cluster :=
  { config := c.config.Set "core.ssl_verify" (Value.str tls.String) }

/-- The method `Cluster.Timeout`: the product with `time.Second` wraps around in
`int64`. -/
def Cluster.Timeout (L : Lib) (c : Cluster) : Duration :=
  let timeout := c.config.Get "core.timeout"
  wrap64 (ToInt64 L timeout * Second)

/-- The method `Cluster.SetTimeout`. -/
def Cluster.SetTimeout (c : Cluster) (timeout : Duration) : Cluster :=
  { config := c.config.Set "core.timeout" (Value.float (Duration.Seconds timeout)) }

/-- The method `Cluster.Name`. -/
def Cluster.Name (L : Lib) (c : Cluster) : String :=
  ToString L (c.config.Get "cluster.name")

/-- The method `Cluster.SetName`. -/
def Cluster.SetName (c : Cluster) (name : String) : Cluster :=
  { config := c.config.Set "cluster.name" (Value.str name) }

/-- The method `Cluster.Config`. -/
def Cluster.Config (c : Cluster) : Config :=
  c.config

/-! ## pkg/cmd/dcos.go -/

/-- A command provided by a plugin (`plugin.Command`): its name, the path of the
executable behind it and its description. -/
structure PluginCommand where
  Name : String
  Path : String
  Description : String
deriving DecidableEq, Repr

/-- A plugin with its commands (`plugin.Plugin`). -/
structure Plugin where
  Commands : List PluginCommand
deriving DecidableEq, Repr

/-- An input or output stream, by name. -/
abbrev Stream := String

/-- An external command being prepared or run (`exec.Cmd`). -/
structure exec.Cmd where
  Path : String
  Args : List String
  lookPathErr : Bool
  Stdin : Option Stream
  Stdout : Option Stream
  Stderr : Option Stream
deriving DecidableEq, Repr

/-- The function `exec.Command`: `Args` is the name followed by the arguments; a
name without a path separator is looked up in the search path. -/
def exec.Command (L : Lib) (name : String) (arg : List String) : exec.Cmd :=
  let cmd : exec.Cmd :=
    { Path := name, Args := [name] ++ arg, lookPathErr := false,
      Stdin := none, Stdout := none, Stderr := none }
  if L.Base name = name then
    match L.LookPath name with
    | none => { cmd with lookPathErr := true }
    | some lp => { cmd with Path := lp }
  else cmd

/-- The host process as the plugin invoker sees it: how running an external
command ends (`Cmd.Run`, `none` for success, else the error), the commands run so
far and the entries of the error log. -/
structure World where
  run : exec.Cmd → Option String
  ran : List exec.Cmd
  errorLog : List String

/-- Modelled from the spec: the attached cluster returned by `ctx.Cluster()`
(package `pkg/config` is not among the sources), of which only the directory of its
plugins is used. -/
structure AttachedCluster where
  SubcommandsDir : String

/-- Modelled from the spec: the interface `api.Context` (package `api` is not among
the sources): the standard streams, the attached cluster (`none` when
`ctx.Cluster()` returns an error) and the plugins found by the plugin manager of a
directory. -/
structure Context where
  Out : Stream
  ErrOut : Stream
  Input : Stream
  Cluster : Option AttachedCluster
  PluginManager : String → List Plugin

/-- A command of the command tree (`cobra.Command`), with the fields this program
sets; `RunE` changes the world and returns an error or `none`. -/
inductive cobra.Command where
  | mk (Use : String) (Short : String) (Aliases : List String)
      (DisableFlagParsing : Bool) (SilenceErrors : Bool) (SilenceUsage : Bool)
      (PersistentFlags : List (String × String × String))
      (Annotations : List (String × String))
      (RunE : Option (World → List String → World × Option String))
      (commands : List cobra.Command)

namespace cobra.Command

/-- Field `Use`. -/
def Use : cobra.Command → String
  | mk u _ _ _ _ _ _ _ _ _ => u

/-- Field `Short`. -/
def Short : cobra.Command → String
  | mk _ s _ _ _ _ _ _ _ _ => s

/-- Field `Aliases`. -/
def Aliases : cobra.Command → List String
  | mk _ _ a _ _ _ _ _ _ _ => a

/-- Field `DisableFlagParsing`. -/
def DisableFlagParsing : cobra.Command → Bool
  | mk _ _ _ d _ _ _ _ _ _ => d

/-- Field `SilenceErrors`. -/
def SilenceErrors : cobra.Command → Bool
  | mk _ _ _ _ e _ _ _ _ _ => e

/-- Field `SilenceUsage`. -/
def SilenceUsage : cobra.Command → Bool
  | mk _ _ _ _ _ u _ _ _ _ => u

/-- Field `RunE`. -/
def RunE : cobra.Command → Option (World → List String → World × Option String)
  | mk _ _ _ _ _ _ _ _ r _ => r

/-- Field `commands`: the subcommands, in the order they were added. -/
def commands : cobra.Command → List cobra.Command
  | mk _ _ _ _ _ _ _ _ _ cs => cs

/-- The method `Command.Name`: the first word of `Use`. -/
def Name (c : cobra.Command) : String :=
  ⟨c.Use.data.takeWhile (fun ch => ch ≠ ' ')⟩

/-- The method `Command.HasAlias`. -/
def HasAlias (c : cobra.Command) (s : String) : Bool :=
  c.Aliases.any (fun a => a = s)

/-- The method `Command.AddCommand`: appends the commands to the subcommands. -/
def AddCommand : cobra.Command → List cobra.Command → cobra.Command
  | mk u s a d e su f an r cs, cmds => mk u s a d e su f an r (cs ++ cmds)

/-- The method `Command.findNext` (prefix matching is off, its default): the
first subcommand whose name or one of whose aliases is `next`. -/
def findNext (c : cobra.Command) (next : String) : Option cobra.Command :=
  c.commands.find? (fun cmd => cmd.Name = next || cmd.HasAlias next)

end cobra.Command

/-- The constant `annotationUsageOptions`. -/
def annotationUsageOptions : String := "usage_options"

/-- The function `newPluginCommand`. -/
def newPluginCommand (L : Lib) (ctx : Context) (cmd : PluginCommand) : cobra.Command :=
  cobra.Command.mk cmd.Name cmd.Description [] true true true [] []
    (some (fun w args =>
      let argsWithRoot := [cmd.Name] ++ args
      let execCmd := exec.Command L cmd.Path argsWithRoot
      let execCmd :=
        { execCmd with Stdout := some ctx.Out, Stderr := some ctx.ErrOut, Stdin := some ctx.Input }
      let err := w.run execCmd
      let w := { w with ran := w.ran ++ [execCmd] }
      match err with
      | some e => ({ w with errorLog := w.errorLog ++ [e] }, some e)
      | none => (w, none)))
    []

/-- The function `NewDCOSCommand`; `auth`, `config` and `cluster` are the commands
returned by `auth.NewCommand`, `config.NewCommand` and `cluster.NewCommand`, whose
packages are not among the sources. The usage template, a help text, is left out. -/
def NewDCOSCommand (L : Lib) (ctx : Context) (auth config cluster : cobra.Command) :
    cobra.Command :=
  let cmd := cobra.Command.mk "dcos" "" [] false false false
    [("", "v", "verbosity (-v or -vv)")] [] none []
  let cmd := cmd.AddCommand [auth, config, cluster]
  let cmd :=
    match ctx.Cluster with
    | some cluster =>
      let pluginManager := ctx.PluginManager cluster.SubcommandsDir
      pluginManager.foldl
        (fun cmd plugin =>
          plugin.Commands.foldl
            (fun cmd pluginCmd => cmd.AddCommand [newPluginCommand L ctx pluginCmd]) cmd)
        cmd
    | none => cmd
  match cmd with
  | cobra.Command.mk u s a d e su f _ r cs =>
    cobra.Command.mk u s a d e su f
      [(annotationUsageOptions,
        "\n  --version\n      Print version information\n  -v, -vv\n      Output verbosity (verbose or very verbose)\n  -h, --help\n      Show usage help")]
      r cs

/-! ## The resolved states of a TLS policy, as the specification names them -/

/-- The three states of the trust policy in the specification. -/
inductive TLSPolicy where
  | Verified
  | InsecureExplicit
  | InsecureFallback
deriving DecidableEq, Repr

/-- The state the specification's resolver gives for a cluster, step by step: a
boolean form is `InsecureExplicit` if false, else `Verified`; a value that is not
a boolean form is `InsecureFallback` when the file cannot be read or holds no
certificate, and `Verified` when it holds at least one. -/
def TLSPolicyResolver (L : Lib) (c : Cluster) : TLSPolicy :=
  let raw := ToString L (c.config.Get "core.ssl_verify")
  match ParseBool raw with
  | some false => TLSPolicy.InsecureExplicit
  | some true => TLSPolicy.Verified
  | none =>
    match ReadFile c.config.Fs raw with
    | none => TLSPolicy.InsecureFallback
    | some data =>
      if (L.decodeCerts data).isEmpty then TLSPolicy.InsecureFallback
      else TLSPolicy.Verified

/-- The zero value of `TLS`. -/
def TLS.zero : TLS :=
  { Insecure := false, RootCAsPath := "", RootCAs := none }

/-! ## Sample data -/

/-- A sample library: PEM data is read as one single-byte certificate per
non-zero byte. -/
def sampleLib : Lib where
  FormatFloat := fun _ => ""
  ParseInt := fun _ => none
  decodeCerts := fun data => (data.filter (fun b => b ≠ 0)).map (fun b => ⟨[b]⟩)
  Base := fun name => name
  LookPath := fun _ => none

/-- A filesystem with a certificate bundle at `ca.pem`, a file without any
certificate at `empty.pem`, and nothing else. -/
def sampleFs : Fs := fun name =>
  if name = "ca.pem" then some [7, 0, 9]
  else if name = "empty.pem" then some [0, 0]
  else none

/-- The filesystem without any file. -/
def noFiles : Fs := fun _ => none

/-- A cluster over `sampleFs` whose `core.ssl_verify` setting is the string `v`. -/
def sampleCluster (v : String) : Cluster :=
  { config := (Config.Empty sampleFs).Set "core.ssl_verify" (Value.str v) }

/-- A built-in command group with the given name and nothing else set. -/
def sampleBuiltin (name : String) : cobra.Command :=
  cobra.Command.mk name "" [] false false false [] [] none []

/-- A context with an attached cluster that has one plugin with two commands, the
first of which is named like the built-in group `auth`. -/
def sampleContext : Context where
  Out := "stdout"
  ErrOut := "stderr"
  Input := "stdin"
  Cluster := some { SubcommandsDir := "/clusters/c1/subcommands" }
  PluginManager := fun _ =>
    [{ Commands := [
        { Name := "auth", Path := "/clusters/c1/subcommands/p/bin/p", Description := "" },
        { Name := "foo", Path := "/clusters/c1/subcommands/p/bin/p", Description := "" }] }]

/-- A world in which every external command succeeds and nothing has run yet. -/
def sampleWorld : World where
  run := fun _ => none
  ran := []
  errorLog := []

/-! ## Properties of the TLS policy resolution -/

theorem ParseBool_eq_some_true (s : String) :
    ParseBool s = some true ↔ s ∈ ["1", "t", "T", "true", "TRUE", "True"] := by
  unfold ParseBool
  simp only [List.mem_cons, List.mem_singleton, List.mem_nil_iff, or_false]
  split_ifs with h1 h2
  · simp [h1]
  · simp [h1]
  · simp [h1]

theorem ParseBool_eq_some_false (s : String) :
    ParseBool s = some false ↔ s ∈ ["0", "f", "F", "false", "FALSE", "False"] := by
  unfold ParseBool
  simp only [List.mem_cons, List.mem_singleton, List.mem_nil_iff, or_false]
  split_ifs with h1 h2
  · simp only [Option.some.injEq, Bool.true_eq_false, false_iff]
    rcases h1 with h | h | h | h | h | h <;> subst h <;> decide
  · simp [h2]
  · simp [h2]

theorem mem_foldl_AddCert (c : Certificate) (l : List Certificate) (s : CertPool) :
    c ∈ (l.foldl CertPool.AddCert s).certs ↔ c ∈ s.certs ∨ c ∈ l := by
  induction l generalizing s with
  | nil => simp
  | cons a l ih =>
    rw [List.foldl_cons, ih]
    unfold CertPool.AddCert
    split_ifs with h
    · constructor
      · rintro (h1 | h1)
        · exact Or.inl h1
        · exact Or.inr (List.mem_cons_of_mem _ h1)
      · rintro (h1 | h1)
        · exact Or.inl h1
        · rcases List.mem_cons.mp h1 with h2 | h2
          · exact Or.inl (h2 ▸ h)
          · exact Or.inr h2
    · simp only [List.mem_append, List.mem_singleton, List.mem_cons]
      tauto

theorem nodup_foldl_AddCert (l : List Certificate) (s : CertPool) (hs : s.certs.Nodup) :
    (l.foldl CertPool.AddCert s).certs.Nodup := by
  induction l generalizing s with
  | nil => simpa using hs
  | cons a l ih =>
    rw [List.foldl_cons]
    apply ih
    unfold CertPool.AddCert
    split_ifs with h
    · exact hs
    · exact List.Nodup.append hs (List.nodup_singleton a) (by simpa using h)

/-- C1: when the raw `core.ssl_verify` string `s` is a boolean textual form with
value `b`, `Cluster.TLS` returns the policy with `Insecure = !b`, an empty
`RootCAsPath` and no `RootCAs`; its `Insecure` flag is true exactly when `s` parses
to false, that is for the six forms of false, and false exactly for the six forms
of true; the result is the same over any other filesystem `fs`. -/
theorem tls_boolean_form (L : Lib) (c : Cluster) (fs : Fs) (s : String) (b : Bool)
    (hs : ToString L (c.config.Get "core.ssl_verify") = s)
    (hb : ParseBool s = some b) :
    c.TLS L = { Insecure := !b, RootCAsPath := "", RootCAs := none } ∧
    ((c.TLS L).Insecure = true ↔ ParseBool s = some false) ∧
    ((c.TLS L).Insecure = true ↔ s ∈ ["0", "f", "F", "false", "FALSE", "False"]) ∧
    ((c.TLS L).Insecure = false ↔ s ∈ ["1", "t", "T", "true", "TRUE", "True"]) ∧
    Cluster.TLS L { config := { c.config with fs := fs } } = c.TLS L := by
  have h1 : c.TLS L = { Insecure := !b, RootCAsPath := "", RootCAs := none } := by
    simp only [Cluster.TLS, hs, hb]
  have h2 : Cluster.TLS L { config := { c.config with fs := fs } } =
      { Insecure := !b, RootCAsPath := "", RootCAs := none } := by
    have hs2 : ToString L (Config.Get { c.config with fs := fs } "core.ssl_verify") = s := hs
    simp only [Cluster.TLS, hs2, hb]
  refine ⟨h1, ?_, ?_, ?_, h2.trans h1.symm⟩
  · rw [h1, hb]
    cases b <;> simp
  · rw [← ParseBool_eq_some_false, h1, hb]
    cases b <;> simp
  · rw [← ParseBool_eq_some_true, h1, hb]
    cases b <;> simp

/-- Witness of `tls_boolean_form`: the setting `False` over the sample filesystem,
compared with the filesystem without files. -/
theorem tls_boolean_form_witness :
    ParseBool "False" = some false ∧
    (sampleCluster "False").TLS sampleLib = { Insecure := true, RootCAsPath := "", RootCAs := none } ∧
    Cluster.TLS sampleLib { config := { (sampleCluster "False").config with fs := noFiles } } =
      (sampleCluster "False").TLS sampleLib :=
  have h := tls_boolean_form sampleLib (sampleCluster "False") noFiles "False" false
    (by decide) (by decide)
  ⟨by decide, h.1, h.2.2.2.2⟩

/-- C2: when the raw `core.ssl_verify` string `s` is not a boolean textual form and
reading the file at path `s` fails, or the file holds no PEM certificate,
`Cluster.TLS` returns the insecure fallback with `Insecure = true`,
`RootCAsPath = s` and no `RootCAs`. -/
theorem tls_insecure_fallback (L : Lib) (c : Cluster) (s : String)
    (hs : ToString L (c.config.Get "core.ssl_verify") = s)
    (hb : ParseBool s = none)
    (hfile : ReadFile c.config.Fs s = none ∨
      ∃ data, ReadFile c.config.Fs s = some data ∧ L.decodeCerts data = []) :
    c.TLS L = { Insecure := true, RootCAsPath := s, RootCAs := none } := by
  rcases hfile with h | ⟨data, h, hd⟩
  · simp only [Cluster.TLS, hs, hb, h]
  · simp [Cluster.TLS, hs, hb, h, CertPool.AppendCertsFromPEM, hd]

/-- Witness of `tls_insecure_fallback`: a path that names no file. -/
theorem tls_insecure_fallback_witness :
    ParseBool "missing.pem" = none ∧
    ReadFile (sampleCluster "missing.pem").config.Fs "missing.pem" = none ∧
    (sampleCluster "missing.pem").TLS sampleLib =
      { Insecure := true, RootCAsPath := "missing.pem", RootCAs := none } :=
  ⟨by decide, by decide,
    tls_insecure_fallback sampleLib (sampleCluster "missing.pem") "missing.pem"
      (by decide) (by decide) (Or.inl (by decide))⟩

/-- C3: when the raw `core.ssl_verify` string `s` is not a boolean textual form and
names a readable file whose contents hold at least one PEM certificate,
`Cluster.TLS` returns a verifying policy: `Insecure = false`, `RootCAsPath = s`, and
`RootCAs` is a pool (without duplicates) whose certificates are exactly the ones
decoded from the contents of the file. -/
theorem tls_verified_pool (L : Lib) (c : Cluster) (s : String) (data : Bytes)
    (hs : ToString L (c.config.Get "core.ssl_verify") = s)
    (hb : ParseBool s = none)
    (hfile : ReadFile c.config.Fs s = some data)
    (hcerts : L.decodeCerts data ≠ []) :
    ∃ pool : CertPool,
      c.TLS L = { Insecure := false, RootCAsPath := s, RootCAs := some pool } ∧
      pool = (NewCertPool.AppendCertsFromPEM L data).1 ∧
      (∀ cert, cert ∈ pool.certs ↔ cert ∈ L.decodeCerts data) ∧
      pool.certs.Nodup := by
  refine ⟨(NewCertPool.AppendCertsFromPEM L data).1, ?_, rfl, ?_, ?_⟩
  · simp [Cluster.TLS, hs, hb, hfile, CertPool.AppendCertsFromPEM, hcerts]
  · intro cert
    simp [CertPool.AppendCertsFromPEM, mem_foldl_AddCert, NewCertPool]
  · exact nodup_foldl_AddCert _ _ (by simp [NewCertPool])

/-- Witness of `tls_verified_pool`: the bundle `ca.pem` of the sample filesystem,
which holds two certificates. -/
theorem tls_verified_pool_witness :
    ParseBool "ca.pem" = none ∧
    ReadFile (sampleCluster "ca.pem").config.Fs "ca.pem" = some [7, 0, 9] ∧
    sampleLib.decodeCerts [7, 0, 9] ≠ [] ∧
    ∃ pool : CertPool,
      (sampleCluster "ca.pem").TLS sampleLib =
        { Insecure := false, RootCAsPath := "ca.pem", RootCAs := some pool } ∧
      pool = (NewCertPool.AppendCertsFromPEM sampleLib [7, 0, 9]).1 ∧
      (∀ cert, cert ∈ pool.certs ↔ cert ∈ sampleLib.decodeCerts [7, 0, 9]) ∧
      pool.certs.Nodup :=
  ⟨by decide, by decide, by decide,
    tls_verified_pool sampleLib (sampleCluster "ca.pem") "ca.pem" [7, 0, 9]
      (by decide) (by decide) (by decide) (by decide)⟩

/-! ## Properties of the typed accessors -/

theorem mem_slash_cutset (ch : Char) : decide (ch ∈ "/".data) = true ↔ ch = '/' := by
  have h : "/".data = ['/'] := rfl
  simp [h]

theorem rdropWhile_slash_replicate (l : List Char) :
    ∃ k, l = l.rdropWhile (fun ch => decide (ch ∈ "/".data)) ++ List.replicate k '/' := by
  induction l using List.reverseRecOn with
  | nil => exact ⟨0, by simp⟩
  | append_singleton l a ih =>
    by_cases ha : a = '/'
    · obtain ⟨k, hk⟩ := ih
      refine ⟨k + 1, ?_⟩
      rw [List.rdropWhile_concat_pos _ l a ((mem_slash_cutset a).mpr ha)]
      rw [List.replicate_succ', ← List.append_assoc, ← hk, ha]
    · refine ⟨0, ?_⟩
      rw [List.rdropWhile_concat_neg _ l a (fun h => ha ((mem_slash_cutset a).mp h))]
      simp

theorem rdropWhile_slash_getLast (l : List Char) :
    (l.rdropWhile (fun ch => decide (ch ∈ "/".data))).getLast? ≠ some '/' := by
  intro h
  have hne : l.rdropWhile (fun ch => decide (ch ∈ "/".data)) ≠ [] := by
    intro h0
    rw [h0] at h
    simp at h
  have hlast := List.rdropWhile_last_not (fun ch => decide (ch ∈ "/".data)) l hne
  rw [List.getLast?_eq_getLast _ hne] at h
  exact hlast ((mem_slash_cutset _).mpr (Option.some.inj h))

theorem get_set_same (c : Config) (key : String) (v : Value) : (c.Set key v).Get key = v := by
  simp [Config.Get, Config.Set]

/-- C4: `SetURL u` followed by `URL` returns `u` without its trailing slashes: the
result is `TrimRight u "/"`, it is a leading part of `u`, it does not end in a
slash, and `u` is the result followed by slashes only; `http://x///` and
`http://x/` both give `http://x`. -/
theorem url_strips_trailing_slashes (L : Lib) (c : Cluster) (u : String) :
    (c.SetURL u).URL L = TrimRight u "/" ∧
    ((c.SetURL u).URL L).data <+: u.data ∧
    ((c.SetURL u).URL L).data.getLast? ≠ some '/' ∧
    (∃ k, u.data = ((c.SetURL u).URL L).data ++ List.replicate k '/') ∧
    (c.SetURL "http://x///").URL L = "http://x" ∧
    (c.SetURL "http://x/").URL L = "http://x" := by
  have h : ∀ v : String, (c.SetURL v).URL L = TrimRight v "/" := by
    intro v
    simp [Cluster.URL, Cluster.SetURL, get_set_same, ToString]
  refine ⟨h u, ?_, ?_, ?_, ?_, ?_⟩
  · rw [h u]
    exact List.rdropWhile_prefix _ _
  · rw [h u]
    exact rdropWhile_slash_getLast u.data
  · rw [h u]
    exact rdropWhile_slash_replicate u.data
  · rw [h]
    decide
  · rw [h]
    decide

theorem roundHalfEven_intCast (m : ℤ) : roundHalfEven (m : ℚ) = m := by
  simp [roundHalfEven]

theorem F64.round_intCast (n : ℤ) (hn : |n| < 2 ^ 53) : F64.round (n : ℚ) = n := by
  unfold F64.round
  by_cases h0 : (n : ℚ) = 0
  · simp [h0]
  · rw [if_neg h0]
    have hn0 : n ≠ 0 := by exact_mod_cast h0
    have habs : |(n : ℚ)| = ((n.natAbs : ℕ) : ℚ) := by
      rw [Nat.cast_natAbs, Int.cast_abs]
    have hpos : 0 < n.natAbs := Int.natAbs_pos.mpr hn0
    have hlt : n.natAbs < 2 ^ 53 := by
      have : ((n.natAbs : ℕ) : ℤ) < 2 ^ 53 := by
        rw [← Int.abs_eq_natAbs]; exact hn
      exact_mod_cast this
    have hlog : Int.log 2 |(n : ℚ)| = (Nat.log 2 n.natAbs : ℤ) := by
      rw [habs, Int.log_natCast]
    have hj : Nat.log 2 n.natAbs < 53 := Nat.log_lt_of_lt_pow (by omega) hlt
    obtain ⟨k, hk⟩ : ∃ k : ℕ, (max (Int.log 2 |(n : ℚ)|) (-1022) - 52 : ℤ) = -(k : ℤ) := by
      refine ⟨52 - Nat.log 2 n.natAbs, ?_⟩
      rw [hlog]
      omega
    simp only [hk]
    rw [zpow_neg, zpow_natCast, div_inv_eq_mul]
    have hcast : (n : ℚ) * 2 ^ k = ((n * 2 ^ k : ℤ) : ℚ) := by push_cast; ring
    rw [hcast, roundHalfEven_intCast]
    push_cast
    field_simp

theorem F64.toInt64_intCast (n : ℤ) (hn : -(2 : ℤ) ^ 63 ≤ n ∧ n < 2 ^ 63) :
    F64.toInt64 (n : ℚ) = n := by
  unfold F64.toInt64
  simp only [Int.floor_intCast, Int.ceil_intCast, ite_self]
  rw [if_pos hn]

theorem wrap64_of_int64 (n : ℤ) (hn : -(2 : ℤ) ^ 63 ≤ n ∧ n < 2 ^ 63) : wrap64 n = n := by
  unfold wrap64
  omega

theorem Seconds_whole (n : ℤ) (hn : |n| < 2 ^ 53) :
    Duration.Seconds (n * Second) = (n : ℚ) := by
  have hs : Second ≠ 0 := by decide
  have hdiv : Int.tdiv (n * Second) Second = n := Int.mul_tdiv_cancel n hs
  have hmod : Int.tmod (n * Second) Second = 0 := Int.mul_tmod_left n Second
  unfold Duration.Seconds
  simp only [hdiv, hmod, F64.ofInt, F64.div, F64.add]
  have h0 : F64.round ((0 : ℤ) : ℚ) = 0 := by simp [F64.round]
  rw [h0, zero_div]
  have h00 : F64.round (0 : ℚ) = 0 := by simp [F64.round]
  rw [h00, F64.round_intCast n hn, add_zero, F64.round_intCast n hn]

/-- C5: for a duration `d` in the `int64` range that is a whole number of seconds,
`SetTimeout d` followed by `Timeout` returns exactly `d`: the stored float64
number of seconds is exact and its conversion back to an integer loses nothing. -/
theorem timeout_roundtrip_whole_seconds (L : Lib) (c : Cluster) (d : Duration)
    (hrange : -(2 : ℤ) ^ 63 ≤ d ∧ d < 2 ^ 63)
    (hwhole : Int.tmod d Second = 0) :
    (c.SetTimeout d).Timeout L = d := by
  have hd : d = Int.tdiv d Second * Second := by
    have := Int.tdiv_add_tmod d Second
    rw [hwhole, add_zero, mul_comm] at this
    exact this.symm
  generalize Int.tdiv d Second = n at hd
  subst hd
  have hS : Second = 1000000000 := rfl
  rw [hS] at hrange
  have h1 : -(9223372036854775808 : ℤ) ≤ n * 1000000000 := by
    have := hrange.1
    norm_num at this
    exact this
  have h2 : n * 1000000000 < (9223372036854775808 : ℤ) := by
    have := hrange.2
    norm_num at this
    exact this
  have hn : |n| < 2 ^ 53 := by
    rw [abs_lt]
    norm_num
    constructor <;> omega
  have hn64 : -(2 : ℤ) ^ 63 ≤ n ∧ n < 2 ^ 63 := by
    norm_num
    constructor <;> omega
  simp only [Cluster.Timeout, Cluster.SetTimeout, get_set_same, ToInt64]
  rw [Seconds_whole n hn, F64.toInt64_intCast n hn64]
  exact wrap64_of_int64 _ (by rw [hS]; exact hrange)

/-- Witness of `timeout_roundtrip_whole_seconds`: a timeout of 90 seconds. -/
theorem timeout_roundtrip_whole_seconds_witness :
    (-(2 : ℤ) ^ 63 ≤ 90 * Second ∧ 90 * Second < 2 ^ 63) ∧ Int.tmod (90 * Second) Second = 0 ∧
    ((sampleCluster "").SetTimeout (90 * Second)).Timeout sampleLib = 90 * Second :=
  ⟨by decide, by decide,
    timeout_roundtrip_whole_seconds sampleLib (sampleCluster "") (90 * Second)
      (by decide) (by decide)⟩

/-! ## Serialisation and invariants of the TLS policy -/

theorem foldl_AddCert_ne_nil (l : List Certificate) (s : CertPool) (hl : l ≠ []) :
    (l.foldl CertPool.AddCert s).certs ≠ [] := by
  obtain ⟨a, l2, rfl⟩ := List.exists_cons_of_ne_nil hl
  have h : a ∈ (List.foldl CertPool.AddCert s (a :: l2)).certs :=
    (mem_foldl_AddCert a (a :: l2) s).mpr (Or.inr (List.mem_cons_self a l2))
  exact List.ne_nil_of_mem h

/-- C6, as stated, fails: the policy resolved from the boolean form `true` is in
the `Verified` state and has an empty path, yet `SetTLS` writes `true`; the policy
resolved from an absent setting is in the `InsecureFallback` state with an empty
path, yet `SetTLS` writes `false`. -/
theorem settls_writes_path_counterexample :
    (TLSPolicyResolver sampleLib (sampleCluster "true") = TLSPolicy.Verified ∧
      ((sampleCluster "true").TLS sampleLib).RootCAsPath = "" ∧
      ((sampleCluster "true").SetTLS ((sampleCluster "true").TLS sampleLib)).config.Get
        "core.ssl_verify" = Value.str "true") ∧
    (TLSPolicyResolver sampleLib (NewCluster noFiles none) = TLSPolicy.InsecureFallback ∧
      ((NewCluster noFiles none).TLS sampleLib).RootCAsPath = "" ∧
      ((NewCluster noFiles none).SetTLS ((NewCluster noFiles none).TLS sampleLib)).config.Get
        "core.ssl_verify" = Value.str "false") := by
  decide

/-- C6, amended: `SetTLS`, on any cluster `t`, applied to the policy `p` returned by
`Cluster.TLS` writes `p.String` to `core.ssl_verify`: the path of `p` when `p` is
`Verified` or `InsecureFallback` and its path is not empty (the path being the raw
setting whenever that is not a boolean form), `false` when `p` is
`InsecureExplicit`, and whenever the path is empty the boolean text of
`!p.Insecure`. -/
theorem settls_writes_serialization (L : Lib) (c t : Cluster) :
    ((TLSPolicyResolver L c = TLSPolicy.Verified ∨
        TLSPolicyResolver L c = TLSPolicy.InsecureFallback) ∧ (c.TLS L).RootCAsPath ≠ "" →
      (t.SetTLS (c.TLS L)).config.Get "core.ssl_verify" = Value.str (c.TLS L).RootCAsPath) ∧
    (TLSPolicyResolver L c = TLSPolicy.InsecureExplicit →
      (t.SetTLS (c.TLS L)).config.Get "core.ssl_verify" = Value.str "false") ∧
    ((c.TLS L).RootCAsPath = "" →
      (t.SetTLS (c.TLS L)).config.Get "core.ssl_verify" =
        Value.str (FormatBool (!(c.TLS L).Insecure))) ∧
    (ParseBool (ToString L (c.config.Get "core.ssl_verify")) = none →
      (c.TLS L).RootCAsPath = ToString L (c.config.Get "core.ssl_verify")) ∧
    (t.SetTLS (c.TLS L)).config.Get "core.ssl_verify" = Value.str (c.TLS L).String := by
  have hw : (t.SetTLS (c.TLS L)).config.Get "core.ssl_verify" = Value.str (c.TLS L).String := by
    simp [Cluster.SetTLS, get_set_same]
  refine ⟨?_, ?_, ?_, ?_, hw⟩
  · rintro ⟨-, hp⟩
    rw [hw, TLS.String, if_pos hp]
  · intro hst
    rw [hw]
    have hfalse : ParseBool (ToString L (c.config.Get "core.ssl_verify")) = some false := by
      unfold TLSPolicyResolver at hst
      simp only at hst
      split at hst
      · assumption
      · exact absurd hst (by decide)
      · split at hst
        · exact absurd hst (by decide)
        · split_ifs at hst
    simp [Cluster.TLS, hfalse, TLS.String, FormatBool]
  · intro hp
    rw [hw, TLS.String]
    simp [hp]
  · intro hb
    simp only [Cluster.TLS, hb]
    split
    · rfl
    · split_ifs <;> rfl

/-- C7, as stated, fails: for the boolean form `true` the policy has verification
enabled (`Insecure = false`) and no `RootCAs` pool. -/
theorem tls_verified_pool_counterexample :
    ((sampleCluster "true").TLS sampleLib).Insecure = false ∧
    ((sampleCluster "true").TLS sampleLib).RootCAs = none := by
  decide

/-- C7, amended: when the raw `core.ssl_verify` value is not a boolean textual form
and the policy returned by `Cluster.TLS` has verification enabled
(`Insecure = false`), the policy carries a `RootCAs` pool with at least one
certificate. -/
theorem tls_verified_has_pool (L : Lib) (c : Cluster)
    (hb : ParseBool (ToString L (c.config.Get "core.ssl_verify")) = none)
    (hv : (c.TLS L).Insecure = false) :
    ∃ pool : CertPool, (c.TLS L).RootCAs = some pool ∧ pool.certs ≠ [] := by
  cases hfile : ReadFile c.config.Fs (ToString L (c.config.Get "core.ssl_verify")) with
  | none => simp [Cluster.TLS, hb, hfile] at hv
  | some data =>
    by_cases hd : L.decodeCerts data = []
    · simp [Cluster.TLS, hb, hfile, CertPool.AppendCertsFromPEM, hd] at hv
    · refine ⟨(NewCertPool.AppendCertsFromPEM L data).1, ?_, ?_⟩
      · simp [Cluster.TLS, hb, hfile, CertPool.AppendCertsFromPEM, hd]
      · exact foldl_AddCert_ne_nil _ _ hd

/-- Witness of `tls_verified_has_pool`: the bundle `ca.pem` of the sample
filesystem. -/
theorem tls_verified_has_pool_witness :
    ParseBool (ToString sampleLib ((sampleCluster "ca.pem").config.Get "core.ssl_verify")) = none ∧
    ((sampleCluster "ca.pem").TLS sampleLib).Insecure = false ∧
    ∃ pool : CertPool,
      ((sampleCluster "ca.pem").TLS sampleLib).RootCAs = some pool ∧ pool.certs ≠ [] :=
  ⟨by decide, by decide,
    tls_verified_has_pool sampleLib (sampleCluster "ca.pem") (by decide) (by decide)⟩

/-- C8, as stated, fails: over the empty configuration (here on a filesystem
without files) `TLS` returns a policy with `Insecure = true`, not the zero value. -/
theorem empty_config_zero_values_counterexample :
    (NewCluster noFiles none).TLS sampleLib =
      { Insecure := true, RootCAsPath := "", RootCAs := none } ∧
    (NewCluster noFiles none).TLS sampleLib ≠ TLS.zero := by
  decide

/-- C8, amended: over the empty configuration `URL`, `ACSToken` and `Name` return
the empty string and `Timeout` returns 0; `TLS` returns a policy with an empty
`RootCAsPath` that is never the zero value, and that is the insecure fallback
(`Insecure = true`, no `RootCAs`) whenever reading the empty path fails. -/
theorem empty_config_accessors (L : Lib) (fs : Fs) :
    (NewCluster fs none).URL L = "" ∧
    (NewCluster fs none).ACSToken L = "" ∧
    (NewCluster fs none).Name L = "" ∧
    (NewCluster fs none).Timeout L = 0 ∧
    ((NewCluster fs none).TLS L).RootCAsPath = "" ∧
    (NewCluster fs none).TLS L ≠ TLS.zero ∧
    (ReadFile fs "" = none →
      (NewCluster fs none).TLS L = { Insecure := true, RootCAsPath := "", RootCAs := none }) := by
  have hget : ∀ key, (NewCluster fs none).config.Get key = Value.nil := fun _ => rfl
  have hfs : (NewCluster fs none).config.Fs = fs := rfl
  have hpb : ParseBool "" = none := by decide
  refine ⟨?_, ?_, ?_, ?_, ?_, ?_, ?_⟩
  · simp only [Cluster.URL, hget, ToString]
    decide
  · simp only [Cluster.ACSToken, hget, ToString]
  · simp only [Cluster.Name, hget, ToString]
  · simp only [Cluster.Timeout, hget, ToInt64]
    decide
  · simp only [Cluster.TLS, hget, ToString, hpb, hfs]
    split
    · rfl
    · split_ifs <;> rfl
  · simp only [Cluster.TLS, hget, ToString, hpb, hfs, TLS.zero]
    split
    · simp
    · split_ifs <;> simp
  · intro hread
    simp only [Cluster.TLS, hget, ToString, hpb, hfs, hread]


/-! ## Properties of the command tree and of plugin dispatch -/

theorem commands_AddCommand (c : cobra.Command) (cmds : List cobra.Command) :
    (c.AddCommand cmds).commands = c.commands ++ cmds := by
  cases c
  rfl

theorem commands_foldl_plugin (L : Lib) (ctx : Context) (pcs : List PluginCommand)
    (c : cobra.Command) :
    (pcs.foldl (fun cmd pluginCmd => cmd.AddCommand [newPluginCommand L ctx pluginCmd]) c).commands
      = c.commands ++ pcs.map (newPluginCommand L ctx) := by
  induction pcs generalizing c with
  | nil => simp
  | cons a l ih =>
    rw [List.foldl_cons, ih, commands_AddCommand]
    simp

theorem commands_foldl_plugins (L : Lib) (ctx : Context) (ps : List Plugin)
    (c : cobra.Command) :
    (ps.foldl (fun cmd plugin =>
        plugin.Commands.foldl
          (fun cmd pluginCmd => cmd.AddCommand [newPluginCommand L ctx pluginCmd]) cmd) c).commands
      = c.commands ++ (ps.flatMap (fun plugin => plugin.Commands)).map (newPluginCommand L ctx) := by
  induction ps generalizing c with
  | nil => simp
  | cons a l ih =>
    rw [List.foldl_cons, ih, commands_foldl_plugin]
    simp

theorem commands_NewDCOSCommand (L : Lib) (ctx : Context) (auth config cluster : cobra.Command) :
    ∃ pcs : List PluginCommand,
      (NewDCOSCommand L ctx auth config cluster).commands =
        [auth, config, cluster] ++ pcs.map (newPluginCommand L ctx) := by
  unfold NewDCOSCommand
  cases hc : ctx.Cluster with
  | none =>
    refine ⟨[], ?_⟩
    simp only [commands_AddCommand, cobra.Command.commands, cobra.Command.AddCommand]
    rfl
  | some cl =>
    refine ⟨(ctx.PluginManager cl.SubcommandsDir).flatMap (fun plugin => plugin.Commands), ?_⟩
    simp only
    generalize hroot : (cobra.Command.mk "dcos" "" [] false false false
      [("", "v", "verbosity (-v or -vv)")] [] none []).AddCommand [auth, config, cluster] = root
    have hr : root.commands = [auth, config, cluster] := by
      rw [← hroot]; rfl
    have := commands_foldl_plugins L ctx (ctx.PluginManager cl.SubcommandsDir) root
    rw [hr] at this
    rw [← this]
    generalize (List.foldl _ root _) = r
    cases r
    rfl

theorem findNext_builtins (L : Lib) (ctx : Context) (auth config cluster : cobra.Command)
    (name : String) (b : cobra.Command)
    (hb : [auth, config, cluster].find? (fun cmd => cmd.Name = name || cmd.HasAlias name) = some b) :
    (NewDCOSCommand L ctx auth config cluster).findNext name = some b := by
  obtain ⟨pcs, hpcs⟩ := commands_NewDCOSCommand L ctx auth config cluster
  unfold cobra.Command.findNext
  rw [hpcs, List.find?_append, hb]
  rfl

/-- C9: running the dispatch entry of a plugin command with name `n` and
executable path `p` on the arguments `args` runs exactly one external command,
made by `exec.Command p ([n] ++ args)` and wired to the streams of the context: its
argument list after the program name is `[n] ++ args`, its path is `p` when `p`
contains a path separator, and the entry has flag parsing disabled. For the name
`foo` and the arguments `bar`, `--baz` the arguments are `foo`, `bar`, `--baz`. -/
theorem plugin_dispatch_argv (L : Lib) (ctx : Context) (cmd : PluginCommand)
    (args : List String) (w : World) :
    ∃ f execCmd,
      (newPluginCommand L ctx cmd).RunE = some f ∧
      (newPluginCommand L ctx cmd).DisableFlagParsing = true ∧
      (newPluginCommand L ctx cmd).Use = cmd.Name ∧
      (f w args).1.ran = w.ran ++ [execCmd] ∧
      execCmd = { exec.Command L cmd.Path ([cmd.Name] ++ args) with
        Stdout := some ctx.Out, Stderr := some ctx.ErrOut, Stdin := some ctx.Input } ∧
      execCmd.Args = [cmd.Path] ++ ([cmd.Name] ++ args) ∧
      (L.Base cmd.Path ≠ cmd.Path → execCmd.Path = cmd.Path) ∧
      (cmd.Name = "foo" → args = ["bar", "--baz"] → execCmd.Args.tail = ["foo", "bar", "--baz"]) := by
  refine ⟨_, { exec.Command L cmd.Path ([cmd.Name] ++ args) with
        Stdout := some ctx.Out, Stderr := some ctx.ErrOut, Stdin := some ctx.Input },
    rfl, rfl, rfl, ?_, rfl, ?_, ?_, ?_⟩
  · simp only
    split <;> rfl
  · simp only [exec.Command]
    split_ifs
    · split <;> rfl
    · rfl
  · intro hbase
    simp only [exec.Command, if_neg hbase]
  · intro hn ha
    simp only [exec.Command]
    split_ifs
    · split <;> simp [hn, ha]
    · simp [hn, ha]

/-- C10: when the built-in groups are named `auth`, `config` and `cluster`, the
command tree built by `NewDCOSCommand` holds them before every plugin command, and
looking up one of these three names gives the same command as a lookup among the
built-ins alone, never a plugin command: `auth` gives the built-in `auth`, and
`config` and `cluster` give the built-in of that name unless an earlier built-in
has the name as an alias. -/
theorem builtins_win_name_collisions (L : Lib) (ctx : Context)
    (auth config cluster : cobra.Command) (name : String)
    (ha : auth.Name = "auth") (hc : config.Name = "config") (hcl : cluster.Name = "cluster")
    (hname : name ∈ ["auth", "config", "cluster"]) :
    (∃ pcs : List PluginCommand,
      (NewDCOSCommand L ctx auth config cluster).commands =
        [auth, config, cluster] ++ pcs.map (newPluginCommand L ctx)) ∧
    (∃ b, b ∈ [auth, config, cluster] ∧ (b.Name = name ∨ b.HasAlias name = true) ∧
      (NewDCOSCommand L ctx auth config cluster).findNext name = some b ∧
      [auth, config, cluster].find? (fun cmd => cmd.Name = name || cmd.HasAlias name) = some b) ∧
    (NewDCOSCommand L ctx auth config cluster).findNext "auth" = some auth ∧
    (auth.HasAlias "config" = false →
      (NewDCOSCommand L ctx auth config cluster).findNext "config" = some config) ∧
    (auth.HasAlias "cluster" = false → config.HasAlias "cluster" = false →
      (NewDCOSCommand L ctx auth config cluster).findNext "cluster" = some cluster) := by
  have hac : auth.Name ≠ "config" := by rw [ha]; decide
  have hacl : auth.Name ≠ "cluster" := by rw [ha]; decide
  have hccl : config.Name ≠ "cluster" := by rw [hc]; decide
  have hauth : [auth, config, cluster].find? (fun cmd => cmd.Name = "auth" || cmd.HasAlias "auth")
      = some auth := by
    simp [List.find?_cons, ha]
  refine ⟨commands_NewDCOSCommand L ctx auth config cluster, ?_,
    findNext_builtins L ctx auth config cluster "auth" auth hauth, ?_, ?_⟩
  · have hex : ∃ b, [auth, config, cluster].find?
        (fun cmd => cmd.Name = name || cmd.HasAlias name) = some b := by
      rw [← Option.isSome_iff_exists, List.find?_isSome]
      simp only [List.mem_cons, List.mem_singleton, List.mem_nil_iff, or_false] at hname
      rcases hname with h | h | h
      · exact ⟨auth, by simp, by simp [ha, h]⟩
      · exact ⟨config, by simp, by simp [hc, h]⟩
      · exact ⟨cluster, by simp, by simp [hcl, h]⟩
    obtain ⟨b, hb⟩ := hex
    refine ⟨b, List.mem_of_find?_eq_some hb, ?_,
      findNext_builtins L ctx auth config cluster name b hb, hb⟩
    have := List.find?_some hb
    simpa using this
  · intro hal
    apply findNext_builtins
    simp [List.find?_cons, hac, hal, hc]
  · intro hal hal2
    apply findNext_builtins
    simp [List.find?_cons, hacl, hal, hccl, hal2, hcl]

/-- Witness of `builtins_win_name_collisions`: a plugin command named `auth`
collides with the built-in group `auth`. -/
theorem builtins_win_name_collisions_witness :
    (sampleBuiltin "auth").Name = "auth" ∧ "auth" ∈ ["auth", "config", "cluster"] ∧
    (NewDCOSCommand sampleLib sampleContext (sampleBuiltin "auth") (sampleBuiltin "config")
      (sampleBuiltin "cluster")).findNext "auth" = some (sampleBuiltin "auth") :=
  ⟨by decide, by decide,
    (builtins_win_name_collisions sampleLib sampleContext (sampleBuiltin "auth")
      (sampleBuiltin "config") (sampleBuiltin "cluster") "auth"
      (by decide) (by decide) (by decide) (by decide)).2.2.1⟩

end DCOS
